import Mathlib

/-!
Shallow embedding of `src/flexible_crawler.py` (a paginated site crawler).

The crawler resolves a list-page URL per page number (`crawl_page`,
lines 51-130), fetches it, parses the content container, and extracts
article records gated by the regex
`^https://news\.ruc\.edu\.cn/\d+\.html$`.  The coordinator (`main`,
lines 133-230) submits one fetch task per page of the inclusive range
`[start_page, end_page]`, and for each completed page with a nonempty
record list opens a DuckDB connection, executes `INSERT OR IGNORE` per
record, commits and closes (lines 197-210).  It reports the page total,
the pre-dedup extracted total and the distinct-URL count.

Network and HTML parsing are modelled by a `FetchOutcome` per page: a
successfully fetched and parsed page is the abstract result of the
BeautifulSoup queries the code performs (the content container and, per
link, the `href` and the text of the sub-elements each `find` call
returns); request errors (`requests.RequestException`: timeout,
connection failure, `raise_for_status` on a non-success status) and any
other exception during processing are the two handler arms of
lines 123-130.  The store is the list of rows of the `article_urls`
table in insertion order; the `id` and `crawled_at` columns (write-time
metadata) do not affect row identity or counts and are omitted.
-/

/-- Abstraction of the `<div class="pp-box-time">` element: `.text` of
its first `<span>` and first `<p>` children, if found. -/
structure TimeDiv where
  /-- Text of `time_div.find('span')`, if found. -/
  span : Option String
  /-- Text of `time_div.find('p')`, if found. -/
  p : Option String
  deriving Repr, DecidableEq

/-- Abstraction of one `<a href=...>` element found inside the content
container: the `href` attribute and the results of the four
`find` calls the extractor performs on it (each field is
`some` exactly when the corresponding `find` returned a truthy element,
carrying that element's `.text`). -/
structure Link where
  href : String
  /-- Text of `link.find('h5', class_='xs-padding xs-font-size')`, if found. -/
  h5 : Option String
  /-- Text of `link.find('p', class_='visible-xs')`, if found. -/
  visibleTime : Option String
  /-- Result of `link.find('div', class_='pp-box-time')`, if found. -/
  timeDiv : Option TimeDiv
  deriving Repr, DecidableEq

/-- A successfully fetched and parsed page: the content container
`soup.find('div', class_='col-sm-9 col-xs-12 xs-padding')` with its
links (`target_div.find_all('a', href=True)` in document order), or
`none` when the container is absent (line 119). -/
structure Page where
  targetDiv : Option (List Link)
  deriving Repr, DecidableEq

/-- Outcome of fetching and parsing one page, matching the `try/except`
structure of `crawl_page` (lines 60-130). -/
inductive FetchOutcome where
  /-- HTTP GET succeeded and BeautifulSoup parsed the response. -/
  | success (pg : Page)
  /-- A `requests.RequestException`: timeout, connection failure, or
  non-success HTTP status via `raise_for_status` (line 123). -/
  | requestError
  /-- Any other exception while processing the page (line 126). -/
  | parseError
  deriving Repr, DecidableEq

/-- An extracted record as appended to `article_items` (lines 112-116). -/
structure ArticleRecord where
  url : String
  title : String
  publish_time : String
  deriving Repr, DecidableEq

/-- Python `str.strip()`: remove leading and trailing whitespace.  (The
embedding reads whitespace as ASCII whitespace.) -/
def stripStr (s : String) : String :=
  ⟨((s.data.dropWhile Char.isWhitespace).reverse.dropWhile Char.isWhitespace).reverse⟩

/-- The exact detail-page form: the fixed host followed by a nonempty
numeric identifier and the `.html` suffix, and nothing else.  (The
embedding reads `\d` as the ASCII digits `0-9`.) -/
def specDetailUrlExact (h : String) : Bool :=
  let host := "https://news.ruc.edu.cn/".data
  let suffix := ".html".data
  let cs := h.data
  host.isPrefixOf cs &&
    (let rest := cs.drop host.length
     suffix.isSuffixOf rest &&
       (let mid := rest.take (rest.length - suffix.length)
        !mid.isEmpty && mid.all Char.isDigit))

/-- Translation of `re.match(r'^https://news\.ruc\.edu\.cn/\d+\.html$', href)`
(line 89).  In Python's `re`, an unanchored-by-`re.MULTILINE` `$`
matches at the end of the string or just before a single newline at the
end of the string, so the pattern accepts the exact form and the exact
form followed by one trailing `'\n'`. -/
def isDetailUrl (h : String) : Bool :=
  specDetailUrlExact h ||
    (h.data.getLast? == some '\n' && specDetailUrlExact ⟨h.data.dropLast⟩)

/-- Title extraction for one qualifying link (lines 90-94):
`h5.text.strip()` when the heading was found, else the empty string. -/
def extractTitle (l : Link) : String :=
  match l.h5 with
  | some t => stripStr t
  | none => ""

/-- Publish-time extraction for one qualifying link (lines 96-110):
the stripped text of the visible `<p class="visible-xs">` when that
leaves a nonempty string (`if not publish_time:` treats the empty
string as missing), else `f"{span.text}.{p.text}"` from the
`pp-box-time` div when both children were found, else empty. -/
def extractPublishTime (l : Link) : String :=
  let pt :=
    match l.visibleTime with
    | some t => stripStr t
    | none => ""
  if pt = "" then
    match l.timeDiv with
    | some td =>
      match td.span, td.p with
      | some s, some p => s ++ "." ++ p
      | _, _ => ""
    | none => ""
  else pt

/-- The per-link body of the extraction loop (lines 86-116): a link
contributes a record exactly when its `href` passes the regex gate. -/
def extractItem (l : Link) : Option ArticleRecord :=
  if isDetailUrl l.href then
    some { url := l.href, title := extractTitle l, publish_time := extractPublishTime l }
  else
    none

/-- Substitute `sub` for every occurrence of the `\x7bpage\x7d`
placeholder in a character stream. -/
def substPage (sub : List Char) : List Char → List Char
  | '\x7b' :: 'p' :: 'a' :: 'g' :: 'e' :: '\x7d' :: cs => sub ++ substPage sub cs
  | c :: cs => c :: substPage sub cs
  | [] => []

/-- Python `base_url_pattern.format(page=page)`: substitute the page number
into the template's page-number placeholder. -/
def formatPage (base_url_pattern : String) (page : Int) : String :=
  ⟨substPage (toString page).data base_url_pattern.data⟩

/-- List-page URL resolution (lines 53-56): page 1 with a nonempty
(truthy) `first_page_url` uses it verbatim; otherwise
`base_url_pattern.format(page=page)`. -/
def resolveListUrl (page : Int) (base_url_pattern first_page_url : String) : String :=
  if page == 1 && !first_page_url.isEmpty then
    first_page_url
  else
    formatPage base_url_pattern page

/-- The function `crawl_page(page, base_url_pattern, first_page_url)` (lines 51-130):
returns the resolved list URL together with the extracted records; a
missing content container or any caught exception yields the empty
record list. -/
def crawl_page (page : Int) (base_url_pattern first_page_url : String)
    (outcome : FetchOutcome) : String × List ArticleRecord :=
  let list_url := resolveListUrl page base_url_pattern first_page_url
  match outcome with
  | .success pg =>
    match pg.targetDiv with
    | some links => (list_url, links.filterMap extractItem)
    | none => (list_url, [])
  | .requestError => (list_url, [])
  | .parseError => (list_url, [])

/-- A row of the `article_urls` table (lines 158-167), omitting the
`id` and `crawled_at` write-time metadata columns. -/
structure StoredRow where
  url : String
  title : String
  publish_time : String
  list_url : String
  deriving Repr, DecidableEq

/-- An `INSERT OR IGNORE` of one row keyed by the `UNIQUE` `url` column
(line 204): a conflicting URL is a silent no-op that never updates the
existing row; otherwise the row is appended. -/
def insertOrIgnore (store : List StoredRow) (r : StoredRow) : List StoredRow :=
  if store.any (fun s => s.url == r.url) then store else store ++ [r]

/-- The operations the coordinator performs against the storage layer
while holding `db_lock` (lines 198-210). -/
inductive StoreOp where
  | openConn : StoreOp
  | insertRow : StoredRow → StoreOp
  | commitConn : StoreOp
  | closeConn : StoreOp
  deriving Repr, DecidableEq

/-- The store-operation trace the coordinator emits for one completed
page (lines 197-210): nothing at all when the record list is empty
(`if article_urls:`), else open, one insert per record (each record
paired with the page's list URL), commit, close. -/
def pageStoreOps (list_url : String) (records : List ArticleRecord) : List StoreOp :=
  if records.isEmpty then
    []
  else
    StoreOp.openConn ::
      records.map (fun it =>
        StoreOp.insertRow
          { url := it.url, title := it.title, publish_time := it.publish_time,
            list_url := list_url }) ++
      [StoreOp.commitConn, StoreOp.closeConn]

/-- Effect of one store operation on the table contents: only
`insertRow` mutates the rows. -/
def applyStoreOp (store : List StoredRow) : StoreOp → List StoredRow
  | .openConn => store
  | .insertRow r => insertOrIgnore store r
  | .commitConn => store
  | .closeConn => store

/-- Coordinator handling of one completed page (lines 194-210): run the
page's store-operation trace against the table. -/
def stepStore (w : Int → FetchOutcome) (base_url_pattern first_page_url : String)
    (store : List StoredRow) (page : Int) : List StoredRow :=
  let res := crawl_page page base_url_pattern first_page_url (w page)
  (pageStoreOps res.1 res.2).foldl applyStoreOp store

/-- Store contents after the coordinator has consumed the completed
pages in the order given by `pages` (the `as_completed` loop,
lines 191-215). -/
def runStore (w : Int → FetchOutcome) (base_url_pattern first_page_url : String)
    (store : List StoredRow) (pages : List Int) : List StoredRow :=
  pages.foldl (stepStore w base_url_pattern first_page_url) store

/-- The running `total_urls` counter (lines 180, 212): every page adds
the length of its extracted record list, duplicates included. -/
def runTotalUrls (w : Int → FetchOutcome) (base_url_pattern first_page_url : String)
    (pages : List Int) : Nat :=
  pages.foldl
    (fun acc page => acc + (crawl_page page base_url_pattern first_page_url (w page)).2.length)
    0

/-- The pages submitted to the pool: `range(start_page, end_page + 1)`
in ascending order, one task per page (lines 186-188). -/
def pageRange (start_page end_page : Int) : List Int :=
  (List.range (end_page + 1 - start_page).toNat).map
    (fun (i : Nat) => start_page + (i : Int))

/-- The figures printed by the end-of-run summary (lines 170, 220-230):
`total_pages = end_page - start_page + 1`, the pre-dedup `total_urls`,
and `SELECT COUNT(*) FROM article_urls`. -/
structure RunSummary where
  totalPages : Int
  totalUrls : Nat
  dbCount : Nat
  deriving Repr, DecidableEq

/-- One whole run of `main` after configuration loading: process every
page of the inclusive range against the store and report the summary.
(`consume` is the order in which `as_completed` yields the page
results; the counts it feeds are order-independent, and the summary is
stated over a given consumption order.) -/
def mainRun (w : Int → FetchOutcome) (base_url_pattern first_page_url : String)
    (start_page end_page : Int) (store0 : List StoredRow) (consume : List Int) :
    RunSummary × List StoredRow :=
  let store := runStore w base_url_pattern first_page_url store0 consume
  (⟨end_page - start_page + 1,
    runTotalUrls w base_url_pattern first_page_url consume,
    store.length⟩,
   store)

example : isDetailUrl "https://news.ruc.edu.cn/123.html" = true := by decide
example : isDetailUrl "https://news.ruc.edu.cn/123.html\n" = true := by decide
example : specDetailUrlExact "https://news.ruc.edu.cn/123.html\n" = false := by decide
example : isDetailUrl "https://news.ruc.edu.cn/12a.html" = false := by decide
example : isDetailUrl "http://news.ruc.edu.cn/123.html" = false := by decide
example : isDetailUrl "https://news.ruc.edu.cn/.html" = false := by decide
example : isDetailUrl "https://news.ruc.edu.cn/123.html/x" = false := by decide
example : resolveListUrl 1 "https://x/p{page}.html" "https://x/first" = "https://x/first" := by decide
example : resolveListUrl 2 "https://x/p{page}.html" "https://x/first" = "https://x/p2.html" := by decide
example : resolveListUrl 1 "https://x/p{page}.html" "" = "https://x/p1.html" := by decide
example : pageRange 1 3 = [1, 2, 3] := by decide
example : pageRange 3 1 = [] := by decide

/-! ## Store lemmas -/

/-- The stored row built from one extracted record and its page's list
URL (the parameter list of the `INSERT` on lines 204-207). -/
def rowOf (list_url : String) (it : ArticleRecord) : StoredRow :=
  { url := it.url, title := it.title, publish_time := it.publish_time, list_url := list_url }

theorem mem_urls_iff {store : List StoredRow} {u : String} :
    u ∈ store.map StoredRow.url ↔ ∃ s ∈ store, s.url = u := by
  simp [List.mem_map]

theorem insertOrIgnore_of_mem {store : List StoredRow} {r : StoredRow}
    (h : r.url ∈ store.map StoredRow.url) : insertOrIgnore store r = store := by
  have : store.any (fun s => s.url == r.url) = true := by
    rcases mem_urls_iff.1 h with ⟨s, hs, hu⟩
    exact List.any_eq_true.2 ⟨s, hs, by simp [hu]⟩
  simp [insertOrIgnore, this]

theorem insertOrIgnore_of_not_mem {store : List StoredRow} {r : StoredRow}
    (h : r.url ∉ store.map StoredRow.url) : insertOrIgnore store r = store ++ [r] := by
  have : store.any (fun s => s.url == r.url) = false := by
    rw [List.any_eq_false]
    intro s hs
    simp only [beq_iff_eq]
    intro hu
    exact h (mem_urls_iff.2 ⟨s, hs, hu⟩)
  simp [insertOrIgnore, this]

/-- Folding one record batch into the store row by row. -/
def insertBatch (store : List StoredRow) (list_url : String)
    (records : List ArticleRecord) : List StoredRow :=
  records.foldl (fun st it => insertOrIgnore st (rowOf list_url it)) store

theorem pageStoreOps_foldl (store : List StoredRow) (list_url : String)
    (records : List ArticleRecord) :
    (pageStoreOps list_url records).foldl applyStoreOp store =
      insertBatch store list_url records := by
  unfold pageStoreOps
  cases records with
  | nil => simp [insertBatch]
  | cons r rs =>
    simp [insertBatch, applyStoreOp, rowOf, List.foldl_map]

theorem stepStore_eq (w : Int → FetchOutcome) (b f : String)
    (store : List StoredRow) (page : Int) :
    stepStore w b f store page =
      insertBatch store (crawl_page page b f (w page)).1 (crawl_page page b f (w page)).2 := by
  unfold stepStore
  exact pageStoreOps_foldl _ _ _

theorem mem_urls_insertOrIgnore_self (store : List StoredRow) (r : StoredRow) :
    r.url ∈ (insertOrIgnore store r).map StoredRow.url := by
  by_cases h : r.url ∈ store.map StoredRow.url
  · rwa [insertOrIgnore_of_mem h]
  · rw [insertOrIgnore_of_not_mem h]
    simp

theorem mem_urls_insertOrIgnore_of_mem {store : List StoredRow} {u : String} (r : StoredRow)
    (h : u ∈ store.map StoredRow.url) : u ∈ (insertOrIgnore store r).map StoredRow.url := by
  by_cases hm : r.url ∈ store.map StoredRow.url
  · rwa [insertOrIgnore_of_mem hm]
  · rw [insertOrIgnore_of_not_mem hm]
    simp only [List.map_append, List.mem_append]
    exact Or.inl h

theorem mem_urls_insertBatch_of_mem {store : List StoredRow} {u : String} {list_url : String}
    (records : List ArticleRecord) (h : u ∈ store.map StoredRow.url) :
    u ∈ (insertBatch store list_url records).map StoredRow.url := by
  induction records generalizing store with
  | nil => exact h
  | cons r rs ih =>
    exact ih (mem_urls_insertOrIgnore_of_mem _ h)

theorem mem_urls_insertBatch_self {store : List StoredRow} {list_url : String}
    {records : List ArticleRecord} {it : ArticleRecord} (hit : it ∈ records) :
    it.url ∈ (insertBatch store list_url records).map StoredRow.url := by
  induction records generalizing store with
  | nil => cases hit
  | cons r rs ih =>
    rcases List.mem_cons.1 hit with h | h
    · subst h
      exact mem_urls_insertBatch_of_mem rs (mem_urls_insertOrIgnore_self store (rowOf list_url it))
    · exact ih h

theorem insertBatch_noop {store : List StoredRow} {list_url : String}
    {records : List ArticleRecord}
    (h : ∀ it ∈ records, it.url ∈ store.map StoredRow.url) :
    insertBatch store list_url records = store := by
  induction records with
  | nil => rfl
  | cons r rs ih =>
    have hr : (rowOf list_url r).url ∈ store.map StoredRow.url := h r (by simp)
    unfold insertBatch
    rw [List.foldl_cons, insertOrIgnore_of_mem hr]
    exact ih (fun it hit => h it (List.mem_cons_of_mem _ hit))

theorem mem_urls_stepStore_of_mem {w : Int → FetchOutcome} {b f : String}
    {store : List StoredRow} {u : String} (page : Int)
    (h : u ∈ store.map StoredRow.url) :
    u ∈ (stepStore w b f store page).map StoredRow.url := by
  rw [stepStore_eq]
  exact mem_urls_insertBatch_of_mem _ h

theorem mem_urls_runStore_of_mem {w : Int → FetchOutcome} {b f : String}
    {store : List StoredRow} {u : String} (pages : List Int)
    (h : u ∈ store.map StoredRow.url) :
    u ∈ (runStore w b f store pages).map StoredRow.url := by
  induction pages generalizing store with
  | nil => exact h
  | cons p ps ih => exact ih (mem_urls_stepStore_of_mem p h)

theorem mem_urls_stepStore_self {w : Int → FetchOutcome} {b f : String}
    {store : List StoredRow} {page : Int} {it : ArticleRecord}
    (hit : it ∈ (crawl_page page b f (w page)).2) :
    it.url ∈ (stepStore w b f store page).map StoredRow.url := by
  rw [stepStore_eq]
  exact mem_urls_insertBatch_self hit

theorem mem_urls_runStore_self {w : Int → FetchOutcome} {b f : String}
    {store : List StoredRow} {pages : List Int} {page : Int} {it : ArticleRecord}
    (hp : page ∈ pages) (hit : it ∈ (crawl_page page b f (w page)).2) :
    it.url ∈ (runStore w b f store pages).map StoredRow.url := by
  induction pages generalizing store with
  | nil => cases hp
  | cons q qs ih =>
    rcases List.mem_cons.1 hp with h | h
    · subst h
      exact mem_urls_runStore_of_mem qs (mem_urls_stepStore_self hit)
    · exact ih h

theorem stepStore_noop {w : Int → FetchOutcome} {b f : String}
    {store : List StoredRow} {page : Int}
    (h : ∀ it ∈ (crawl_page page b f (w page)).2, it.url ∈ store.map StoredRow.url) :
    stepStore w b f store page = store := by
  rw [stepStore_eq]
  exact insertBatch_noop h

theorem runStore_noop {w : Int → FetchOutcome} {b f : String}
    {store : List StoredRow} {pages : List Int}
    (h : ∀ page ∈ pages, ∀ it ∈ (crawl_page page b f (w page)).2,
      it.url ∈ store.map StoredRow.url) :
    runStore w b f store pages = store := by
  induction pages with
  | nil => rfl
  | cons p ps ih =>
    unfold runStore
    rw [List.foldl_cons, stepStore_noop (h p (by simp))]
    exact ih (fun q hq => h q (List.mem_cons_of_mem _ hq))

theorem runStore_rerun {w : Int → FetchOutcome} {b f : String}
    {store : List StoredRow} {pages1 pages2 : List Int}
    (hsub : ∀ p ∈ pages2, p ∈ pages1) :
    runStore w b f (runStore w b f store pages1) pages2 =
      runStore w b f store pages1 := by
  refine runStore_noop (fun page hp it hit => ?_)
  exact mem_urls_runStore_self (hsub page hp) hit

/-! ## Claim theorems -/

/-- A sample qualifying link used by concrete instantiations. -/
def sampleLink : Link :=
  { href := "https://news.ruc.edu.cn/2024.html", h5 := some " T ",
    visibleTime := some "2024-05-01", timeDiv := none }

/-- A sample world: page 1 carries one qualifying link, every other
page fails with a request error. -/
def sampleWorld : Int → FetchOutcome :=
  fun p => if p == 1 then .success ⟨some [sampleLink]⟩ else .requestError

/-- C1: Re-ingestion is idempotent.  For every page range, every
initial store state and identical fetched content, consuming the same
page range a second time (each run in any completion order that is a
permutation of the submitted range) leaves the store rows — and hence
the reported distinct-URL count — unchanged, because an
`INSERT OR IGNORE` whose URL already exists in the store is a silent
no-op that never updates the existing row. -/
theorem reingestion_idempotent (w : Int → FetchOutcome) (b f : String)
    (store0 : List StoredRow) (s e : Int) (order1 order2 : List Int)
    (h1 : order1.Perm (pageRange s e)) (h2 : order2.Perm (pageRange s e)) :
    runStore w b f (runStore w b f store0 order1) order2 =
      runStore w b f store0 order1 ∧
    (mainRun w b f s e (mainRun w b f s e store0 order1).2 order2).1.dbCount =
      (mainRun w b f s e store0 order1).1.dbCount := by
  have hsub : ∀ p ∈ order2, p ∈ order1 := fun p hp =>
    h1.symm.subset (h2.subset hp)
  refine ⟨runStore_rerun hsub, ?_⟩
  simp only [mainRun]
  rw [runStore_rerun hsub]

/-- Witness for C1 at a concrete two-page range, the two runs consumed
in different completion orders. -/
theorem reingestion_idempotent_witness :
    runStore sampleWorld "https://x/p{page}.html" ""
        (runStore sampleWorld "https://x/p{page}.html" "" [] [2, 1]) [1, 2] =
      runStore sampleWorld "https://x/p{page}.html" "" [] [2, 1] ∧
    (mainRun sampleWorld "https://x/p{page}.html" "" 1 2
        (mainRun sampleWorld "https://x/p{page}.html" "" 1 2 [] [2, 1]).2 [1, 2]).1.dbCount =
      (mainRun sampleWorld "https://x/p{page}.html" "" 1 2 [] [2, 1]).1.dbCount :=
  reingestion_idempotent sampleWorld "https://x/p{page}.html" "" [] 1 2 [2, 1] [1, 2]
    (by decide) (by decide)

/-! ## URL-stream lemmas for the count invariant -/

/-- The pre-dedup URL stream a run feeds to the store: every extracted
record's URL over the consumed pages, duplicates included. -/
def allUrls (w : Int → FetchOutcome) (b f : String) (pages : List Int) : List String :=
  pages.flatMap (fun p => ((crawl_page p b f (w p)).2).map ArticleRecord.url)

/-- The `INSERT OR IGNORE` effect at the URL level. -/
def insUrl (us : List String) (u : String) : List String :=
  if u ∈ us then us else us ++ [u]

theorem insertOrIgnore_urls (store : List StoredRow) (r : StoredRow) :
    (insertOrIgnore store r).map StoredRow.url = insUrl (store.map StoredRow.url) r.url := by
  by_cases h : r.url ∈ store.map StoredRow.url
  · rw [insertOrIgnore_of_mem h]
    simp [insUrl, h]
  · rw [insertOrIgnore_of_not_mem h]
    simp [insUrl, h]

theorem insertBatch_urls (store : List StoredRow) (list_url : String)
    (records : List ArticleRecord) :
    (insertBatch store list_url records).map StoredRow.url =
      (records.map ArticleRecord.url).foldl insUrl (store.map StoredRow.url) := by
  induction records generalizing store with
  | nil => rfl
  | cons r rs ih =>
    show (insertBatch (insertOrIgnore store (rowOf list_url r)) list_url rs).map StoredRow.url = _
    rw [ih, List.map_cons, List.foldl_cons, insertOrIgnore_urls]
    rfl

theorem runStore_urls (w : Int → FetchOutcome) (b f : String)
    (store : List StoredRow) (pages : List Int) :
    (runStore w b f store pages).map StoredRow.url =
      (allUrls w b f pages).foldl insUrl (store.map StoredRow.url) := by
  induction pages generalizing store with
  | nil => rfl
  | cons p ps ih =>
    show (runStore w b f (stepStore w b f store p) ps).map StoredRow.url = _
    rw [ih, stepStore_eq, insertBatch_urls]
    simp only [allUrls, List.flatMap_cons, List.foldl_append]

theorem foldl_insUrl_length_le (us : List String) (acc : List String) :
    (us.foldl insUrl acc).length ≤ acc.length + us.length := by
  induction us generalizing acc with
  | nil => simp
  | cons u us ih =>
    rw [List.foldl_cons]
    simp only [List.length_cons]
    by_cases h : u ∈ acc
    · have := ih acc
      simp only [insUrl, if_pos h]
      omega
    · have := ih (acc ++ [u])
      rw [List.length_append, List.length_singleton] at this
      simp only [insUrl, if_neg h]
      omega

theorem foldl_insUrl_length_eq_iff (us : List String) (acc : List String) :
    (us.foldl insUrl acc).length = acc.length + us.length ↔
      us.Nodup ∧ ∀ u ∈ us, u ∉ acc := by
  induction us generalizing acc with
  | nil => simp
  | cons u us ih =>
    rw [List.foldl_cons]
    simp only [List.length_cons]
    by_cases h : u ∈ acc
    · simp only [insUrl, if_pos h]
      have hle := foldl_insUrl_length_le us acc
      constructor
      · intro heq
        omega
      · rintro ⟨-, hall⟩
        exact absurd h (hall u (List.mem_cons_self u us))
    · simp only [insUrl, if_neg h]
      have key := ih (acc ++ [u])
      rw [List.length_append, List.length_singleton] at key
      constructor
      · intro heq
        have hiff := key.1 (by omega)
        refine ⟨List.nodup_cons.2 ⟨fun hu => ?_, hiff.1⟩, ?_⟩
        · have := hiff.2 u hu
          simp at this
        · intro v hv
          rcases List.mem_cons.1 hv with rfl | hv'
          · exact h
          · have := hiff.2 v hv'
            simp only [List.mem_append, List.mem_singleton] at this
            exact fun hva => this (Or.inl hva)
      · rintro ⟨hnd, hall⟩
        rcases List.nodup_cons.1 hnd with ⟨hu, hnd'⟩
        have : (us.foldl insUrl (acc ++ [u])).length = acc.length + 1 + us.length := by
          refine key.2 ⟨hnd', fun v hv => ?_⟩
          simp only [List.mem_append, List.mem_singleton]
          rintro (hva | rfl)
          · exact hall v (List.mem_cons_of_mem _ hv) hva
          · exact hu hv
        omega

theorem runTotalUrls_eq (w : Int → FetchOutcome) (b f : String) (pages : List Int) :
    runTotalUrls w b f pages = (allUrls w b f pages).length := by
  have aux : ∀ (ps : List Int) (acc : Nat),
      ps.foldl (fun a p => a + (crawl_page p b f (w p)).2.length) acc =
        acc + (allUrls w b f ps).length := by
    intro ps
    induction ps with
    | nil => intro acc; simp [allUrls]
    | cons p ps ih =>
      intro acc
      rw [List.foldl_cons, ih]
      simp only [allUrls, List.flatMap_cons, List.length_append, List.length_map]
      omega
  have := aux pages 0
  simpa [runTotalUrls] using this

/-- A row already present in the store before a run begins. -/
def preRow : StoredRow :=
  { url := "https://news.ruc.edu.cn/999.html", title := "", publish_time := "",
    list_url := "seed" }

/-- C2 counterexample: against a pre-populated store, the reported
distinct-URL count at the end of the run exceeds the pre-dedup
extracted total — one page extracts one record, the seed row makes the
final count two, and `1 >= 2` fails — so the claim is false as stated
for runs over a non-empty store. -/
theorem extracted_ge_stored_fails_prepopulated :
    ¬ ((mainRun sampleWorld "https://x/p{page}.html" "" 1 1 [preRow] [1]).1.dbCount ≤
        (mainRun sampleWorld "https://x/p{page}.html" "" 1 1 [preRow] [1]).1.totalUrls) := by
  decide

/-- C2 (amended): for every run starting from an empty store, the
reported pre-dedup extracted total is at least the distinct-URL count
reported from the store at the end of the run, with equality if and
only if no URL appears twice across the whole consumed page sequence. -/
theorem extracted_ge_stored (w : Int → FetchOutcome) (b f : String)
    (s e : Int) (order : List Int) :
    (mainRun w b f s e [] order).1.dbCount ≤ (mainRun w b f s e [] order).1.totalUrls ∧
    ((mainRun w b f s e [] order).1.totalUrls = (mainRun w b f s e [] order).1.dbCount ↔
      (allUrls w b f order).Nodup) := by
  have hlen : (runStore w b f [] order).length =
      ((allUrls w b f order).foldl insUrl []).length := by
    rw [← List.length_map (runStore w b f [] order) StoredRow.url, runStore_urls]
    rfl
  have hle := foldl_insUrl_length_le (allUrls w b f order) []
  have hiff := foldl_insUrl_length_eq_iff (allUrls w b f order) []
  simp only [List.length_nil, Nat.zero_add, List.not_mem_nil, not_false_iff,
    implies_true, and_true] at hle hiff
  simp only [mainRun]
  rw [runTotalUrls_eq, hlen]
  exact ⟨hle, by rw [eq_comm]; exact hiff⟩

/-- The caught per-page failure modes: `requests.RequestException`
(timeout, connection failure, non-success status) and any other
exception during processing (lines 123-130). -/
def isFailure : FetchOutcome → Bool
  | .success _ => false
  | .requestError => true
  | .parseError => true

theorem crawl_page_of_failure (page : Int) (b f : String) (o : FetchOutcome)
    (ho : isFailure o = true) :
    crawl_page page b f o = (resolveListUrl page b f, []) := by
  cases o with
  | success pg => simp [isFailure] at ho
  | requestError => rfl
  | parseError => rfl

/-- C4: Failure isolation.  Any network/transport failure or parsing
exception is caught inside `crawl_page`, which returns the resolved
list URL with an empty record sequence instead of raising; and a run's
store contents are exactly those produced by the non-failing pages, so
one page's failure never prevents other pages' results from being
stored or the run from completing. -/
theorem page_failure_isolated (w : Int → FetchOutcome) (b f : String)
    (store : List StoredRow) (pages : List Int) (page : Int) (o : FetchOutcome)
    (ho : isFailure o = true) :
    crawl_page page b f o = (resolveListUrl page b f, []) ∧
    runStore w b f store pages =
      runStore w b f store (pages.filter (fun p => !(isFailure (w p)))) := by
  refine ⟨crawl_page_of_failure page b f o ho, ?_⟩
  induction pages generalizing store with
  | nil => rfl
  | cons p ps ih =>
    show runStore w b f (stepStore w b f store p) ps = _
    rw [List.filter_cons]
    cases hf : isFailure (w p) with
    | true =>
      rw [if_neg (show ¬((!true) = true) by simp)]
      have hstep : stepStore w b f store p = store := by
        rw [stepStore_eq, crawl_page_of_failure p b f (w p) hf]
        rfl
      rw [hstep]
      exact ih store
    | false =>
      rw [if_pos (show (!false) = true by simp)]
      show _ = runStore w b f (stepStore w b f store p) (ps.filter _)
      exact ih (stepStore w b f store p)

/-- Witness for C4: page 2 fails with a request error; its result is
the resolved URL with no records, and the two-page run stores the same
rows as the run over the non-failing pages alone. -/
theorem page_failure_isolated_witness :
    crawl_page 2 "https://x/p{page}.html" "" FetchOutcome.requestError =
      ("https://x/p2.html", []) ∧
    runStore sampleWorld "https://x/p{page}.html" "" [] [1, 2] =
      runStore sampleWorld "https://x/p{page}.html" ""
        [] (([1, 2] : List Int).filter (fun p => !(isFailure (sampleWorld p)))) := by
  have h := page_failure_isolated sampleWorld "https://x/p{page}.html" "" [] [1, 2] 2
    FetchOutcome.requestError rfl
  exact ⟨h.1.trans (by decide), h.2⟩

theorem filterMap_extractItem_urls (links : List Link) :
    (links.filterMap extractItem).map ArticleRecord.url =
      (links.filter (fun l => isDetailUrl l.href)).map Link.href := by
  induction links with
  | nil => rfl
  | cons l ls ih =>
    rw [List.filterMap_cons, List.filter_cons]
    cases h : isDetailUrl l.href with
    | true => simp [extractItem, h, ih]
    | false => simp [extractItem, h, ih]

/-- A link whose target is the exact detail form followed by a single
trailing newline: Python's `$` still matches it. -/
def newlineLink : Link :=
  { href := "https://news.ruc.edu.cn/123.html\n", h5 := none, visibleTime := none,
    timeDiv := none }

/-- C5 counterexample: a hyperlink whose target is not of the exact
detail-page form (it carries a trailing newline after `.html`, so it is
not "the fixed host, a numeric identifier, a `.html` suffix, and
nothing else") still contributes a record, because Python's `$` anchor
also matches just before a final newline.  This refutes the claim as
stated. -/
theorem pattern_gate_admits_trailing_newline :
    (crawl_page 1 "https://x/p{page}.html" ""
        (.success ⟨some [newlineLink]⟩)).2 =
      [{ url := "https://news.ruc.edu.cn/123.html\n", title := "", publish_time := "" }] ∧
    specDetailUrlExact "https://news.ruc.edu.cn/123.html\n" = false := by
  decide

/-- C5 (amended): for every hyperlink found in the content container,
the link contributes a record if and only if its target matches the
detail-page pattern — the exact form (fixed host, numeric identifier,
`.html` suffix and nothing else) or that exact form followed by one
trailing newline, the regex end-anchor quirk; non-matching links are
excluded entirely, with no error. -/
theorem pattern_gate (page : Int) (b f : String) (pg : Page) :
    ((crawl_page page b f (.success pg)).2).map ArticleRecord.url =
      ((pg.targetDiv.getD []).filter (fun l => isDetailUrl l.href)).map Link.href := by
  cases pg with
  | mk td =>
    cases td with
    | none => rfl
    | some links =>
      show (links.filterMap extractItem).map ArticleRecord.url = _
      rw [filterMap_extractItem_urls]
      rfl

/-- A qualifying link with no title-bearing sub-element. -/
def headlessLink : Link :=
  { href := "https://news.ruc.edu.cn/7.html", h5 := none, visibleTime := none,
    timeDiv := none }

/-- C6: Degraded-field policy for titles.  A qualifying link whose
nested heading element is absent still yields a record for that link
with the empty string as title: the record is emitted, not dropped. -/
theorem missing_heading_keeps_record (page : Int) (b f : String) (pg : Page)
    (links : List Link) (l : Link)
    (hdiv : pg.targetDiv = some links) (hl : l ∈ links)
    (hmatch : isDetailUrl l.href = true) (hh5 : l.h5 = none) :
    ({ url := l.href, title := "", publish_time := extractPublishTime l } : ArticleRecord) ∈
      (crawl_page page b f (.success pg)).2 := by
  have hitem : extractItem l =
      some { url := l.href, title := "", publish_time := extractPublishTime l } := by
    simp [extractItem, hmatch, extractTitle, hh5]
  simp only [crawl_page, hdiv]
  exact List.mem_filterMap.2 ⟨l, hl, hitem⟩

/-- Witness for C6 at a concrete heading-less qualifying link. -/
theorem missing_heading_keeps_record_witness :
    ({ url := "https://news.ruc.edu.cn/7.html", title := "",
       publish_time := extractPublishTime headlessLink } : ArticleRecord) ∈
      (crawl_page 3 "https://x/p{page}.html" "" (.success ⟨some [headlessLink]⟩)).2 :=
  missing_heading_keeps_record 3 "https://x/p{page}.html" "" ⟨some [headlessLink]⟩
    [headlessLink] headlessLink rfl (List.mem_singleton.2 rfl) (by decide) rfl

/-- Modelled from the spec sentence for comparison: "publish_time is
taken from a directly visible time element if present, else
reconstructed by concatenating a month/year fragment and a day fragment
found in a secondary hidden structure, else left empty" — the first
stage guarded by presence alone. -/
def specPublishTime (l : Link) : String :=
  match l.visibleTime with
  | some t => stripStr t
  | none =>
    match l.timeDiv with
    | some td =>
      match td.span, td.p with
      | some s, some p => s ++ "." ++ p
      | _, _ => ""
    | none => ""

/-- A qualifying link whose visible time element is present but
whitespace-only, with both hidden fragments available. -/
def blankVisibleLink : Link :=
  { href := "https://news.ruc.edu.cn/8.html", h5 := none,
    visibleTime := some "  ",
    timeDiv := some { span := some "2024.05", p := some "19" } }

/-- C7 counterexample: with the visible time element present but
whitespace-only, the code's `if not publish_time:` treats the stripped
empty string as missing and falls through to the hidden structure,
emitting "2024.05.19"; the claim as stated takes the (empty) visible
text whenever the element is present. -/
theorem publish_time_blank_visible_falls_through :
    extractItem blankVisibleLink =
      some { url := "https://news.ruc.edu.cn/8.html", title := "",
             publish_time := "2024.05.19" } ∧
    specPublishTime blankVisibleLink = "" ∧
    extractPublishTime blankVisibleLink ≠ specPublishTime blankVisibleLink := by
  decide

/-- C7 (amended): publish-time fallback chain.  Every qualifying link
yields a record carrying `extractPublishTime`; that value is the
stripped text of the visible time element when the element is present
and its stripped text is nonempty; otherwise the concatenation of the
month/year fragment, a dot and the day fragment when both are present
in the hidden structure; otherwise the empty string. -/
theorem publish_time_fallback_chain (l : Link) (hmatch : isDetailUrl l.href = true) :
    extractItem l =
      some { url := l.href, title := extractTitle l,
             publish_time := extractPublishTime l } ∧
    (∀ t, l.visibleTime = some t → stripStr t ≠ "" →
      extractPublishTime l = stripStr t) ∧
    (l.visibleTime.elim "" stripStr = "" →
      ∀ td s p, l.timeDiv = some td → td.span = some s → td.p = some p →
        extractPublishTime l = s ++ "." ++ p) ∧
    (l.visibleTime.elim "" stripStr = "" →
      (∀ td s p, ¬(l.timeDiv = some td ∧ td.span = some s ∧ td.p = some p)) →
      extractPublishTime l = "") := by
  refine ⟨by simp [extractItem, hmatch], ?_, ?_, ?_⟩
  · intro t ht hne
    unfold extractPublishTime
    rw [ht]
    simp only [if_neg hne]
  · intro hvt td s p htd hs hp
    unfold extractPublishTime
    cases hv : l.visibleTime with
    | none => simp [htd, hs, hp]
    | some t =>
      rw [hv] at hvt
      simp only [Option.elim] at hvt
      simp [hvt, htd, hs, hp]
  · intro hvt hnone
    unfold extractPublishTime
    have hpt : (match l.visibleTime with | some t => stripStr t | none => "") = "" := by
      cases hv : l.visibleTime with
      | none => rfl
      | some t =>
        rw [hv] at hvt
        simpa using hvt
    rw [hpt]
    simp only [if_pos rfl]
    cases htd : l.timeDiv with
    | none => simp
    | some td =>
      cases hs : td.span with
      | none => simp [hs]
      | some s =>
        cases hp : td.p with
        | none => simp [hs, hp]
        | some p => exact absurd ⟨htd, hs, hp⟩ (hnone td s p)

/-- Witness for C7 at the sample link, whose visible time text is
nonempty. -/
theorem publish_time_fallback_chain_witness :
    extractPublishTime sampleLink = "2024-05-01" := by
  have h := (publish_time_fallback_chain sampleLink (by decide)).2.1
    "2024-05-01" rfl (by decide)
  rw [h]
  decide

theorem crawl_page_fst (page : Int) (b f : String) (o : FetchOutcome) :
    (crawl_page page b f o).1 = resolveListUrl page b f := by
  cases o with
  | success pg =>
    cases pg with
    | mk td => cases td <;> rfl
  | requestError => rfl
  | parseError => rfl

/-- C8: Page-URL resolution.  For every page number, configuration and
fetch outcome: if the page number is 1 and a first-page override is
configured (a nonempty `firstPageUrl`, the empty string being the
unconfigured default), the fetcher uses the override verbatim as the
target address; in every other case the target address is the template
with the page number substituted into its placeholder. -/
theorem first_page_override_resolution (page : Int) (b f : String) (o : FetchOutcome) :
    (page = 1 ∧ f ≠ "" → (crawl_page page b f o).1 = f) ∧
    ((page ≠ 1 ∨ f = "") → (crawl_page page b f o).1 = formatPage b page) := by
  rw [crawl_page_fst]
  unfold resolveListUrl
  constructor
  · rintro ⟨rfl, hf⟩
    have hfe : f.isEmpty = false := by
      cases hfi : f.isEmpty
      · rfl
      · exact absurd ((String.isEmpty_iff f).1 hfi) hf
    have hc : ((1 : Int) == 1 && !f.isEmpty) = true := by
      simp [hfe]
    rw [if_pos hc]
  · intro h
    have hc : ¬((page == 1 && !f.isEmpty) = true) := by
      rcases h with h | h
      · simp [h]
      · simp [String.isEmpty_iff, h]
    rw [if_neg hc]

/-- Witness for C8: page 1 takes the configured override verbatim and
page 2 takes the substituted template. -/
theorem first_page_override_resolution_witness :
    (crawl_page 1 "https://x/p{page}.html" "https://x/first" FetchOutcome.parseError).1 =
      "https://x/first" ∧
    (crawl_page 2 "https://x/p{page}.html" "https://x/first" FetchOutcome.parseError).1 =
      formatPage "https://x/p{page}.html" 2 := by
  constructor
  · exact (first_page_override_resolution 1 "https://x/p{page}.html" "https://x/first"
      FetchOutcome.parseError).1 ⟨rfl, by decide⟩
  · exact (first_page_override_resolution 2 "https://x/p{page}.html" "https://x/first"
      FetchOutcome.parseError).2 (Or.inl (by decide))

/-- C9: Exactly-once page dispatch.  The dispatcher's submission list
contains precisely the pages of the inclusive range
`[start_page, end_page]`, each exactly once (no retries), in ascending
page-number order; and the end-of-run summary reports
`end_page - start_page + 1` pages attempted, whatever the worlds and
individual page results. -/
theorem exactly_once_dispatch (s e : Int) :
    (∀ p : Int, p ∈ pageRange s e ↔ s ≤ p ∧ p ≤ e) ∧
    (pageRange s e).Nodup ∧
    List.Sorted (· < ·) (pageRange s e) ∧
    ∀ (w : Int → FetchOutcome) (b f : String) (store0 : List StoredRow)
      (order : List Int),
      (mainRun w b f s e store0 order).1.totalPages = e - s + 1 := by
  have hsort : List.Sorted (· < ·) (pageRange s e) := by
    refine List.Pairwise.map (fun (i : Nat) => s + (i : Int)) ?_
      (List.pairwise_lt_range _)
    intro a b hab
    show s + (a : Int) < s + (b : Int)
    omega
  refine ⟨?_, hsort.nodup, hsort, fun w b f store0 order => rfl⟩
  intro p
  simp only [pageRange, List.mem_map, List.mem_range]
  constructor
  · rintro ⟨i, hi, rfl⟩
    omega
  · rintro ⟨h1, h2⟩
    exact ⟨(p - s).toNat, by omega, by omega⟩

/-- C10: Frame property for empty pages.  A completed page whose
extracted record list is empty causes no store operation at all — its
store-operation trace is empty, so no connection is opened and no
insert executed, and the store is unchanged by that page — while the
page contributes zero to the running extracted total and the reported
page count still covers the full range. -/
theorem empty_page_no_store_ops (w : Int → FetchOutcome) (b f : String)
    (store store0 : List StoredRow) (page s e : Int) (order : List Int)
    (h : (crawl_page page b f (w page)).2 = []) :
    pageStoreOps (crawl_page page b f (w page)).1 (crawl_page page b f (w page)).2 = [] ∧
    stepStore w b f store page = store ∧
    runTotalUrls w b f [page] = 0 ∧
    (mainRun w b f s e store0 order).1.totalPages = e - s + 1 := by
  refine ⟨?_, ?_, ?_, rfl⟩
  · rw [h]
    rfl
  · rw [stepStore_eq, h]
    rfl
  · simp [runTotalUrls, h]

/-- Witness for C10: under the sample world, page 2 fails and extracts
nothing; the store, here seeded with one row, is untouched. -/
theorem empty_page_no_store_ops_witness :
    pageStoreOps (crawl_page 2 "https://x/p{page}.html" "" (sampleWorld 2)).1
        (crawl_page 2 "https://x/p{page}.html" "" (sampleWorld 2)).2 = [] ∧
    stepStore sampleWorld "https://x/p{page}.html" "" [preRow] 2 = [preRow] ∧
    runTotalUrls sampleWorld "https://x/p{page}.html" "" [2] = 0 ∧
    (mainRun sampleWorld "https://x/p{page}.html" "" 1 3 [] [1, 2, 3]).1.totalPages =
      3 - 1 + 1 :=
  empty_page_no_store_ops sampleWorld "https://x/p{page}.html" "" [preRow] [] 2 1 3
    [1, 2, 3] rfl
